import Mathlib

/-!
Verification development for the feed-posts aggregation pipeline.

The program (an event-loop JavaScript action) lists tracker entries (issues),
extracts an embedded JSON block from each entry body, fetches the declared
RSS/Atom feed with a retry wrapper, rewrites the entry body, and folds all
results into one report that is finally sorted and serialized.

The embedding below translates each source function into a pure Lean
definition.  External effects (the HTTP fetch, the tracker-update call) are
supplied as explicit environment functions; thrown JS exceptions are the
Except error channel; JS string truthiness is the test against the empty
string; JS object truthiness is constantly true.
-/

/-- Separator constant used by the simplified date parser. -/
def dashSep : String := "-"

/-- The empty string, named for use as a fallback argument. -/
def emptyStr : String := ""

/-- String produced by the dayjs library when formatting an unparsable date.
Modelled from the dayjs library: dayjs(s).format(fmt) renders the string
"Invalid Date" whenever s does not parse as a date, and never throws. -/
def invalidDateStr : String := "Invalid Date"

/-- The separator character of the simplified date shapes. -/
def dashChar : Char := '-'

/-- Splits a character list at every dash, keeping empty groups. -/
def splitDash : List Char → List (List Char)
  | [] => [[]]
  | c :: rest =>
    match splitDash rest with
    | [] => [[]]
    | g :: gs => if c = dashChar then [] :: g :: gs else (c :: g) :: gs

/-- Numeric value of a decimal digit character. -/
def digitVal (c : Char) : Nat := c.toNat - 48

/-- Decimal reading of a digit-character list. -/
def digitsToNat (cs : List Char) : Nat :=
  cs.foldl (fun a c => a * 10 + digitVal c) 0

/-- Simplified model of date parsing shared by dayjs(s) and new Date(s):
a string of the shape Y-M-D with non-empty digit components parses to a
number that orders dates chronologically; anything else fails to parse. -/
def parseDateModel (s : String) : Option Int :=
  match splitDash s.toList with
  | [y, m, d] =>
    if y ≠ [] && m ≠ [] && d ≠ [] && (y ++ m ++ d).all Char.isDigit then
      some ((digitsToNat y : Int) * 10000 + (digitsToNat m : Int) * 100
        + (digitsToNat d : Int))
    else none
  | _ => none

/-- Decimal digit characters of a positive number, most significant first,
with a structural fuel that is ample at fuel = n. -/
def natDigitsFuel : Nat → Nat → List Char
  | 0, _ => []
  | fuel + 1, n =>
    if n = 0 then []
    else natDigitsFuel fuel (n / 10) ++ [Char.ofNat (48 + n % 10)]

/-- Decimal text of a natural number. -/
def natToDigitStr (n : Nat) : String :=
  if n = 0 then "0" else String.mk (natDigitsFuel n n)

/-- Rendering of a parsed timestamp under a format string.  The exact text
dayjs produces is irrelevant to every claim, so it is abstracted as a
pairing of the format string and the timestamp value. -/
def renderDate (n : Int) (fmt : String) : String :=
  fmt ++ dashSep ++ natToDigitStr n.toNat

/-- Embeds formatDate of src/src/utils.js: dayjs(dateString).format(format).
On a parsable date it renders it with the format; on an unparsable one dayjs
yields the marker string "Invalid Date".  It never throws. -/
def formatDate (dateString : String) (fmt : String) : String :=
  match parseDateModel dateString with
  | some n => renderDate n fmt
  | none => invalidDateStr

/-- Outcome record of one withRetry invocation: the value returned or error
thrown (ok none models the undefined returned when the loop body never ran),
the number of attempts performed, and the list of inter-attempt delays
(each entry is the duration in milliseconds of one setTimeout wait). -/
structure RetryOutcome (E A : Type) where
  result : Except E (Option A)
  attempts : Nat
  delays : List Nat
deriving Repr

/-- Loop of withRetry from src/src/utils.js, indexed by the current
iteration i and the number of iterations remaining (retries - i).  Each
iteration runs fn; a success returns immediately; a failure on the last
iteration (remaining = 1, i.e. i = retries - 1) rethrows the error; an
earlier failure waits delayMs and continues with i + 1. -/
def withRetryGo (fn : Nat → Except E A) (delayMs : Nat) :
    Nat → Nat → RetryOutcome E A
  | _, 0 => ⟨Except.ok none, 0, []⟩
  | i, remaining + 1 =>
    match fn i with
    | Except.ok a => ⟨Except.ok (some a), 1, []⟩
    | Except.error e =>
      match remaining with
      | 0 => ⟨Except.error e, 1, []⟩
      | _ + 1 =>
        let r := withRetryGo fn delayMs (i + 1) remaining
        ⟨r.result, r.attempts + 1, delayMs :: r.delays⟩

/-- Embeds withRetry(fn, retries, delay) of src/src/utils.js.  fn is given
the attempt index so that distinct attempts may observe distinct outcomes. -/
def withRetry (fn : Nat → Except E A) (retries : Nat) (delayMs : Nat) :
    RetryOutcome E A :=
  withRetryGo fn delayMs 0 retries

/-- Failure kinds of one fetch-and-parse attempt inside parseFeed's try
block: an axios network error, an axios timeout, or markup so malformed
that loading it raises. -/
inductive FetchErr
  | network
  | timeout
  | parseFailure
deriving DecidableEq, Repr

/-- One feed item as seen through the cheerio selectors of parseFeed:
the title text, the RSS link text, the Atom link attributes (absent
attribute = none), and the raw date strings (absent element = empty text). -/
structure FeedItem where
  title : String
  linkText : String
  alternateHref : Option String
  firstHref : Option String
  pubDate : String
  published : String
deriving DecidableEq, Repr

/-- A successfully loaded feed document: the items matched by the Atom
selector feed > entry and by the RSS selector rss > channel > item. -/
structure FeedDoc where
  atomEntries : List FeedItem
  rssItems : List FeedItem
deriving DecidableEq, Repr

/-- One extracted post: pushed as an object with title, link and the
formatted published string. -/
structure Post where
  title : String
  link : String
  published : String
deriving DecidableEq, Repr

/-- Per-item extraction of parseFeed (the items.each callback): RSS items
take the link text, Atom entries take the alternate href falling back to
the first href when the former is absent or empty (JS falsy); the raw date
(pubDate for RSS, published for Atom) is formatted when non-empty, else the
published field is the empty string; the post is kept only when title and
link are both truthy (present and non-empty). -/
def extractPost (isRss : Bool) (fmt : String) (it : FeedItem) : Option Post :=
  let link : Option String :=
    if isRss then some it.linkText
    else
      match it.alternateHref with
      | some h => if h ≠ "" then some h else it.firstHref
      | none => it.firstHref
  let rawDate := if isRss then it.pubDate else it.published
  let published := if rawDate ≠ "" then formatDate rawDate fmt else ""
  match link with
  | some l => if it.title ≠ "" && l ≠ "" then some ⟨it.title, l, published⟩ else none
  | none => none

/-- Configuration surface read at startup: posts_count, date_format,
retry_times. -/
structure Config where
  postsCount : Nat
  dateFormat : String
  retryTimes : Nat

/-- Format detection and extraction of parseFeed: items are the Atom
entries, or the RSS items when no Atom entry matched; isRss is set only
when the fallback matched at least one item; the first postsCount items
are extracted and the kept posts collected in order. -/
def extractPosts (cfg : Config) (doc : FeedDoc) : List Post :=
  let isRss := doc.atomEntries.isEmpty && !doc.rssItems.isEmpty
  let items := if doc.atomEntries.isEmpty then doc.rssItems else doc.atomEntries
  (items.take cfg.postsCount).filterMap (extractPost isRss cfg.dateFormat)

/-- Try block of parseFeed: the fetch (axios.get plus cheerio.load) either
throws, or yields a document from which posts are extracted. -/
def parseFeedBody (cfg : Config) (fetch : String → Except FetchErr FeedDoc)
    (feedUrl : String) : Except FetchErr (List Post) :=
  match fetch feedUrl with
  | Except.error e => Except.error e
  | Except.ok doc => Except.ok (extractPosts cfg doc)

/-- Embeds parseFeed of src/unnamed/part_000 (and the identical function of
the second source variant): the whole try block is wrapped in a catch that
logs via handleError and returns the empty list, so the function itself has
no error channel at all. -/
def parseFeed (cfg : Config) (fetch : String → Except FetchErr FeedDoc)
    (feedUrl : String) : List Post :=
  match parseFeedBody cfg fetch feedUrl with
  | Except.ok posts => posts
  | Except.error _ => []

/-- One post object found inside the posts array already embedded in the
structured JSON block of a tracker entry body. -/
structure JPost where
  title : String
  link : String
  published : String
deriving DecidableEq, Repr

/-- The structured object parsed from the fenced JSON block of an entry
body.  Absent fields are none; posts is some only when the field holds an
array (the Array.isArray test of the aggregation). -/
structure JsonData where
  feed : Option String
  author : Option String
  avatar : Option String
  name : Option String
  posts : Option (List JPost)
deriving DecidableEq, Repr

/-- Classification of an entry body as processIssue observes it: a falsy
body, a body without a fenced JSON block (the regex finds no match), a
block whose text JSON.parse rejects (the thrown SyntaxError is swallowed by
the catch-all), or a parsed structured object. -/
inductive BodyContent
  | noBody
  | noJsonBlock (text : String)
  | badJson (text : String)
  | goodJson (data : JsonData)
deriving DecidableEq, Repr

/-- One tracker entry (issue): its number and the classified body. -/
structure Issue where
  number : Nat
  content : BodyContent
deriving DecidableEq, Repr

/-- A feed status of an entry result: active when the live fetch yielded at
least one post, error otherwise. -/
inductive Status
  | active
  | error
deriving DecidableEq, Repr

/-- The object resolved by processIssue.  The error-path literals carry no
data and no newBody field (undefined in JS, none here). -/
structure ProcessResult where
  data : Option JsonData
  newBody : Option String
  posts : List Post
  status : Status
  feedUrl : Option String
deriving DecidableEq, Repr

/-- The error result object returned on every degraded path of
processIssue. -/
def errProcessResult : ProcessResult :=
  ⟨none, none, [], Status.error, none⟩

/-- JS truthiness of the object processIssue resolves with: an object is
always truthy, whatever its fields hold. -/
def resultTruthy (_ : ProcessResult) : Bool := true

/-- Model of the rewritten entry body: the original block replaced by the
canonical re-serialization JSON.stringify(jsonData, null, 2).  The exact
text is irrelevant to every claim, so the serialization is abstracted. -/
def canonicalBody (d : JsonData) : String :=
  (d.feed.getD emptyStr) ++ dashSep ++ (d.name.getD emptyStr) ++ dashSep
    ++ (d.avatar.getD emptyStr)

/-- Embeds processIssue of src/unnamed/part_000 (and the identical function
of the second source variant).  A falsy body, an absent block or a JSON
parse failure yield the error result; with a parsed object, a truthy feed
URL is fetched through withRetry(() => parseFeed(url), retryTimes) with the
default 1000 ms delay, status becomes active only when at least one post
came back, and the full result object is returned.  The outer catch-all
maps any thrown error to the error result, so the function is total. -/
def processIssue (cfg : Config) (fetch : String → Except FetchErr FeedDoc)
    (issue : Issue) : ProcessResult :=
  match issue.content with
  | BodyContent.noBody => errProcessResult
  | BodyContent.noJsonBlock _ => errProcessResult
  | BodyContent.badJson _ => errProcessResult
  | BodyContent.goodJson d =>
    match d.feed with
    | none => ⟨some d, some (canonicalBody d), [], Status.error, none⟩
    | some u =>
      if u ≠ "" then
        match (withRetry
            (fun _ => (Except.ok (parseFeed cfg fetch u) : Except FetchErr (List Post)))
            cfg.retryTimes 1000).result with
        | Except.error _ => errProcessResult
        | Except.ok optPosts =>
          ⟨some d, some (canonicalBody d), optPosts.getD [],
            if (optPosts.getD []).length > 0 then Status.active else Status.error,
            some u⟩
      else ⟨some d, some (canonicalBody d), [], Status.error, some u⟩

/-- One flattened article of the final report: title and link of the post,
created holding the post's raw published string, author taken from the name
field of the structured data, avatar from its avatar field. -/
structure Article where
  title : String
  created : String
  link : String
  author : String
  avatar : String
deriving DecidableEq, Repr

/-- The push performed for each post of result.data.posts in the merge step
of run: author is data.name with the empty fallback, avatar is data.avatar
with the empty fallback. -/
def toArticle (d : JsonData) (p : JPost) : Article :=
  ⟨p.title, p.published, p.link, d.name.getD emptyStr, d.avatar.getD emptyStr⟩

/-- The articles a single entry contributes to the aggregation: the posts
array embedded in its structured data, mapped through toArticle; an entry
without a parsed block, or whose data has no posts array, contributes
nothing. -/
def entryArticles (issue : Issue) : List Article :=
  match issue.content with
  | BodyContent.goodJson d =>
    match d.posts with
    | some ps => ps.map (toArticle d)
    | none => []
  | _ => []

/-- The merge step of run applied to one process result: when result.data
is present and its posts field is an array, each post is pushed and
article_num grows by the array length. -/
def mergeArticles (r : ProcessResult) : List Article × Nat :=
  match r.data with
  | some d =>
    match d.posts with
    | some ps => (ps.map (toArticle d), ps.length)
    | none => ([], 0)
  | none => ([], 0)

/-- The mutable accumulation state of run: allArticles, active_num,
error_num, article_num. -/
structure RunState where
  allArticles : List Article
  active_num : Nat
  error_num : Nat
  article_num : Nat
deriving DecidableEq, Repr

/-- The only exception that can escape an entry task: the awaited tracker
update call (octokit issues.update) rejecting for the given issue. -/
inductive RunError
  | updateFailed (issueNumber : Nat)
deriving DecidableEq, Repr

/-- The environment a run executes against: the configuration, the per-URL
fetch outcome, and the per-issue success of the tracker update call. -/
structure Env where
  cfg : Config
  fetch : String → Except FetchErr FeedDoc
  updateOk : Nat → Bool

/-- The body of one scheduled task of run: processIssue, the truthiness
branch incrementing active_num or error_num, the awaited update call whose
rejection escapes the task, and the merge of the embedded posts. -/
def runStep (env : Env) (st : RunState) (issue : Issue) :
    Except RunError RunState :=
  let result := processIssue env.cfg env.fetch issue
  if resultTruthy result then
    let st1 : RunState :=
      ⟨st.allArticles, st.active_num + 1, st.error_num, st.article_num⟩
    if env.updateOk issue.number then
      let m := mergeArticles result
      Except.ok ⟨st1.allArticles ++ m.1, st1.active_num, st1.error_num,
        st1.article_num + m.2⟩
    else Except.error (RunError.updateFailed issue.number)
  else
    Except.ok ⟨st.allArticles, st.active_num, st.error_num + 1, st.article_num⟩

/-- The driver loop of run: each iteration awaits pool.add of the task for
one issue, so the next task starts only after the previous one settled; a
rejection aborts the loop and is rethrown to the outer catch. -/
def runLoop (env : Env) : List Issue → RunState → Except RunError RunState
  | [], st => Except.ok st
  | i :: is, st =>
    match runStep env st i with
    | Except.ok st2 => runLoop env is st2
    | Except.error e => Except.error e

/-- Comparator passed to allArticles.sort: new Date(b.created) minus
new Date(a.created); when either date is unparsable the subtraction is NaN,
which the sort treats as zero (keep relative order). -/
def jsCompare (a b : Article) : Int :=
  match parseDateModel b.created, parseDateModel a.created with
  | some db, some da => db - da
  | _, _ => 0

/-- Merge of two runs under the jsCompare comparator, stable (ties keep the
left element first), with a structural fuel so the definition computes by
kernel reduction; the zero-fuel case is unreachable whenever the fuel is at
least the combined length. -/
def mergeFuel : Nat → List Article → List Article → List Article
  | 0, _, _ => []
  | _ + 1, [], ys => ys
  | _ + 1, x :: xs, [] => x :: xs
  | f + 1, x :: xs, y :: ys =>
    if jsCompare y x < 0 then y :: mergeFuel f (x :: xs) ys
    else x :: mergeFuel f xs (y :: ys)

/-- Top-down stable merge sort with structural fuel, modelling the stable
Array.prototype.sort mandated by the language and implemented as a merge
sort by the engines; the zero-fuel case is unreachable whenever the fuel is
at least the list length. -/
def sortFuel : Nat → List Article → List Article
  | 0, _ => []
  | f + 1, l =>
    if l.length ≤ 1 then l
    else
      mergeFuel l.length (sortFuel f (l.take (l.length / 2)))
        (sortFuel f (l.drop (l.length / 2)))

/-- Embeds allArticles.sort((a, b) => new Date(b.created) - new
Date(a.created)): stable merge sort under jsCompare, with fuel equal to the
list length, which suffices for the recursion depth. -/
def sortJS (l : List Article) : List Article :=
  sortFuel l.length l

/-- The final report object: statistical_data counters and the sorted
article_data (the generation timestamp field is a formatted clock reading
no claim concerns, and is omitted). -/
structure Report where
  friends_num : Nat
  active_num : Nat
  error_num : Nat
  article_num : Nat
  article_data : List Article
deriving DecidableEq, Repr

/-- Embeds run of src/unnamed/part_000 (and the identical function of the
second source variant) from the point where the entry list is in hand: the
awaited per-entry tasks in submission order, then the report built from the
final counters and the sorted article list; a task rejection reaches the
outer catch, which logs and exits the process without writing the output
artifact (the error branch here). -/
def run (env : Env) (issues : List Issue) : Except RunError Report :=
  match runLoop env issues ⟨[], 0, 0, 0⟩ with
  | Except.ok st =>
    Except.ok ⟨issues.length, st.active_num, st.error_num, st.article_num,
      sortJS st.allArticles⟩
  | Except.error e => Except.error e

/-- The concurrency ceiling constant CONCURRENCY_LIMIT of the source. -/
def CONCURRENCY_LIMIT : Nat := 10

/-- Instrumentation events of the scheduler: a task body starting to
execute inside pool.add (after running was incremented) and the body
settling (the finally block releasing the slot). -/
inductive PoolEvent
  | taskStart (n : Nat)
  | taskEnd (n : Nat)
deriving DecidableEq, Repr

/-- Event trace of the driver loop of run.  Because the loop awaits
pool.add(task) for each issue, and that promise resolves only after the
task body settled and the finally block released the slot, the next body
starts strictly after the previous one ended; a rejected update call makes
the awaited promise reject after the slot release, aborting the loop. -/
def runTrace (env : Env) : List Issue → List PoolEvent
  | [] => []
  | i :: is =>
    PoolEvent.taskStart i.number :: PoolEvent.taskEnd i.number ::
      (if env.updateOk i.number then runTrace env is else [])

/-- Running maximum of the number of task bodies in flight along a trace:
cur is the current in-flight count, acc the peak seen so far. -/
def peakAux : List PoolEvent → Nat → Nat → Nat
  | [], _, acc => acc
  | PoolEvent.taskStart _ :: es, cur, acc =>
    peakAux es (cur + 1) (max acc (cur + 1))
  | PoolEvent.taskEnd _ :: es, cur, acc => peakAux es (cur - 1) acc

/-- Peak number of task bodies simultaneously in flight along a trace. -/
def peakConcurrency (es : List PoolEvent) : Nat :=
  peakAux es 0 0

/-- Order in which task bodies were admitted to execute along a trace. -/
def startsOf : List PoolEvent → List Nat
  | [] => []
  | PoolEvent.taskStart n :: es => n :: startsOf es
  | PoolEvent.taskEnd _ :: es => startsOf es

/-- Sample format string (the documented default date_format). -/
def fmtA : String := "YYYY-MM-DD HH:mm:ss"

/-- Sample configuration: posts_count 2, the default format, retry_times 3. -/
def cfgA : Config := ⟨2, fmtA, 3⟩

/-- Sample feed URL. -/
def urlA : String := "https://example.com/feed"

/-- Sample embedded post, the newer of the two. -/
def jpost1 : JPost := ⟨"T1", "L1", "2024-01-02"⟩

/-- Sample embedded post, the older of the two. -/
def jpost2 : JPost := ⟨"T2", "L2", "2024-01-01"⟩

/-- Sample avatar string. -/
def avA : String := "AV"

/-- Sample author name string. -/
def nmA : String := "NM"

/-- Sample structured data: a feed URL, a name, an avatar and an embedded
posts array holding the two sample posts (older first). -/
def dataA : JsonData :=
  ⟨some urlA, none, some avA, some nmA, some [jpost2, jpost1]⟩

/-- Sample tracker entry number 1 carrying the sample structured data. -/
def issueA : Issue := ⟨1, BodyContent.goodJson dataA⟩

/-- Sample RSS feed item served by the sample fetch. -/
def itemA : FeedItem := ⟨"Hello", "https://x/1", none, none, "2024-01-01", ""⟩

/-- Sample feed document: no Atom entries, one RSS item. -/
def docA : FeedDoc := ⟨[], [itemA]⟩

/-- Sample environment: every fetch succeeds with the sample document and
every tracker update succeeds. -/
def envA : Env := ⟨cfgA, fun _ => Except.ok docA, fun _ => true⟩

/-- Sample entry list: the single sample entry. -/
def issuesA : List Issue := [issueA]

/-- The report the sample run produces: one entry processed, no error, the
two embedded posts flattened and sorted newest first. -/
def reportA : Report :=
  ⟨1, 1, 0, 2, [toArticle dataA jpost1, toArticle dataA jpost2]⟩

/-- Environment identical to the sample one except that every tracker
update call fails. -/
def envBadUpd : Env := ⟨cfgA, fun _ => Except.ok docA, fun _ => false⟩

/-- A fetch collaborator whose every attempt throws a parse failure. -/
def badFetch : String → Except FetchErr FeedDoc :=
  fun _ => Except.error FetchErr.parseFailure

/-- A raw date string no date parser accepts. -/
def garbageDate : String := "last tuesday of spring"

/-- An RSS item whose pubDate is present but unparsable. -/
def itemBad : FeedItem := ⟨"T", "L", none, none, garbageDate, ""⟩

/-- A feed document holding only the unparsable-date item. -/
def docBad : FeedDoc := ⟨[], [itemBad]⟩

/-- A fetch collaborator always serving the unparsable-date document. -/
def fetchBadDate : String → Except FetchErr FeedDoc :=
  fun _ => Except.ok docBad

/-- An RSS item with a parsable pubDate. -/
def itemGood : FeedItem := ⟨"T", "L", none, none, "2024-01-02", ""⟩

/-- An attempt-indexed fetch collaborator that always serves the sample
document. -/
def fetchAtW : Nat → String → Except FetchErr FeedDoc :=
  fun _ _ => Except.ok docA

/-- Attempt function for exercising the retry boundary: the first attempt
throws, every later attempt succeeds with 42. -/
def fnW : Nat → Except Nat Nat :=
  fun i => if i = 0 then Except.error 0 else Except.ok 42

/-- The descending-order relation the report claims about adjacent
articles: whenever both created fields parse as dates, the later article's
date is no greater. -/
def descR (a b : Article) : Prop :=
  ∀ da db, parseDateModel a.created = some da →
    parseDateModel b.created = some db → db ≤ da

/-- The report a completed run over the given entries necessarily equals:
every entry counted active, no errors, and the article list drawn from the
embedded posts arrays, sorted. -/
def reportOf (issues : List Issue) : Report :=
  ⟨issues.length, issues.length, 0, (issues.flatMap entryArticles).length,
    sortJS (issues.flatMap entryArticles)⟩



lemma withRetryGo_attempts_pos (fn : Nat → Except E A) (delayMs i rem : Nat)
    (h : 1 ≤ rem) : 1 ≤ (withRetryGo fn delayMs i rem).attempts := by
  match rem, h with
  | rem + 1, _ =>
    rw [withRetryGo]
    cases hfn : fn i with
    | ok a => simp
    | error e =>
      cases rem with
      | zero => simp
      | succ rem => simp

lemma withRetryGo_attempts_le (fn : Nat → Except E A) (delayMs : Nat) :
    ∀ rem i, (withRetryGo fn delayMs i rem).attempts ≤ rem := by
  intro rem
  induction rem with
  | zero => intro i; rw [withRetryGo]
  | succ rem ih =>
    intro i
    rw [withRetryGo]
    cases hfn : fn i with
    | ok a => simp
    | error e =>
      cases rem with
      | zero => simp
      | succ rem =>
        simpa using Nat.succ_le_succ (ih (i + 1))

lemma withRetryGo_delays (fn : Nat → Except E A) (delayMs : Nat) :
    ∀ rem i, (withRetryGo fn delayMs i rem).delays =
      List.replicate ((withRetryGo fn delayMs i rem).attempts - 1) delayMs := by
  intro rem
  induction rem with
  | zero => intro i; rw [withRetryGo]; simp
  | succ rem ih =>
    intro i
    rw [withRetryGo]
    cases hfn : fn i with
    | ok a => simp
    | error e =>
      cases rem with
      | zero => simp
      | succ rem =>
        have hpos := withRetryGo_attempts_pos fn delayMs (i + 1) (rem + 1)
          (Nat.succ_le_succ (Nat.zero_le rem))
        simp only []
        rw [ih (i + 1)]
        have : (withRetryGo fn delayMs (i + 1) (rem + 1)).attempts + 1 - 1
            = (withRetryGo fn delayMs (i + 1) (rem + 1)).attempts := by omega
        rw [this]
        cases hat : (withRetryGo fn delayMs (i + 1) (rem + 1)).attempts with
        | zero => omega
        | succ k => simp [List.replicate_succ]

lemma withRetryGo_all_fail (fn : Nat → Except E A) (delayMs : Nat) :
    ∀ rem i, 1 ≤ rem →
      (∀ j, i ≤ j → j < i + rem - 1 → (fn j).isOk = false) →
      (withRetryGo fn delayMs i rem).result = Except.map some (fn (i + rem - 1)) := by
  intro rem
  induction rem with
  | zero => intro i h; omega
  | succ rem ih =>
    intro i _ hfail
    cases rem with
    | zero =>
      have hidx : i + 1 - 1 = i := by omega
      rw [withRetryGo, hidx]
      cases hfn : fn i with
      | ok a => rfl
      | error e => rfl
    | succ rem =>
      have hi : (fn i).isOk = false := hfail i (Nat.le_refl i) (by omega)
      cases hfn : fn i with
      | ok a => rw [hfn] at hi; simp [Except.isOk, Except.toBool] at hi
      | error e =>
        rw [withRetryGo, hfn]
        have hrec := ih (i + 1) (Nat.succ_le_succ (Nat.zero_le rem))
          (fun j hj1 hj2 => hfail j (by omega) (by omega))
        show (withRetryGo fn delayMs (i + 1) (rem + 1)).result = _
        rw [hrec]
        have hidx : i + 1 + (rem + 1) - 1 = i + (rem + 1 + 1) - 1 := by omega
        rw [hidx]

lemma withRetryGo_first_success (fn : Nat → Except E A) (delayMs : Nat) :
    ∀ rem i k a, k < rem →
      (∀ j, i ≤ j → j < i + k → (fn j).isOk = false) →
      fn (i + k) = Except.ok a →
      withRetryGo fn delayMs i rem
        = ⟨Except.ok (some a), k + 1, List.replicate k delayMs⟩ := by
  intro rem
  induction rem with
  | zero => intro i k a hk; omega
  | succ rem ih =>
    intro i k a hk hfail hok
    cases k with
    | zero =>
      have hi : fn i = Except.ok a := by
        have h0 : i + 0 = i := by omega
        rw [h0] at hok
        exact hok
      rw [withRetryGo, hi]
      rfl
    | succ k =>
      have hi : (fn i).isOk = false := hfail i (Nat.le_refl i) (by omega)
      cases hfn : fn i with
      | ok b => rw [hfn] at hi; simp [Except.isOk, Except.toBool] at hi
      | error e =>
        cases rem with
        | zero => omega
        | succ rem =>
          rw [withRetryGo, hfn]
          have hrec := ih (i + 1) k a (by omega)
            (fun j hj1 hj2 => hfail j (by omega) (by omega))
            (by
              have hidx : i + 1 + k = i + (k + 1) := by omega
              rw [hidx]
              exact hok)
          show (⟨(withRetryGo fn delayMs (i + 1) (rem + 1)).result,
            (withRetryGo fn delayMs (i + 1) (rem + 1)).attempts + 1,
            delayMs :: (withRetryGo fn delayMs (i + 1) (rem + 1)).delays⟩
              : RetryOutcome E A)
            = ⟨Except.ok (some a), k + 1 + 1, List.replicate (k + 1) delayMs⟩
          rw [hrec]
          simp [List.replicate_succ]

lemma withRetry_first_ok (fn : Nat → Except E A) (retries delayMs : Nat)
    (a : A) (hr : 1 ≤ retries) (hfn : fn 0 = Except.ok a) :
    withRetry fn retries delayMs = ⟨Except.ok (some a), 1, []⟩ := by
  match retries, hr with
  | retries + 1, _ =>
    rw [withRetry, withRetryGo, hfn]

lemma withRetry_const_result (v : A) (retries delayMs : Nat) :
    (withRetry (fun _ => (Except.ok v : Except E A)) retries delayMs).result
      = Except.ok (if 1 ≤ retries then some v else none) := by
  cases retries with
  | zero => rw [withRetry, withRetryGo]; simp
  | succ r => rw [withRetry, withRetryGo]; simp

lemma processIssue_data (cfg : Config) (fetch : String → Except FetchErr FeedDoc)
    (issue : Issue) :
    (processIssue cfg fetch issue).data =
      match issue.content with
      | BodyContent.goodJson d => some d
      | _ => none := by
  cases issue with
  | mk n content =>
    cases content with
    | noBody => rfl
    | noJsonBlock t => rfl
    | badJson t => rfl
    | goodJson d =>
      show (processIssue cfg fetch ⟨n, BodyContent.goodJson d⟩).data = some d
      rw [processIssue]
      cases hf : d.feed with
      | none => simp [hf]
      | some u =>
        by_cases hu : u = ""
        · simp [hf, hu]
        · simp only [hf, hu, ne_eq, not_false_eq_true, if_true, ite_true]
          rw [withRetry_const_result]

lemma mergeArticles_processIssue (cfg : Config)
    (fetch : String → Except FetchErr FeedDoc) (issue : Issue) :
    mergeArticles (processIssue cfg fetch issue) =
      (entryArticles issue, (entryArticles issue).length) := by
  have hd := processIssue_data cfg fetch issue
  cases issue with
  | mk n content =>
    cases content with
    | noBody => rfl
    | noJsonBlock t => rfl
    | badJson t => rfl
    | goodJson d =>
      simp only [] at hd
      rw [mergeArticles, hd]
      show _ = (entryArticles ⟨n, BodyContent.goodJson d⟩,
        (entryArticles ⟨n, BodyContent.goodJson d⟩).length)
      rw [entryArticles]
      cases hp : d.posts with
      | none => simp [hp]
      | some ps => simp [hp]

lemma runStep_eq (env : Env) (st : RunState) (issue : Issue) :
    runStep env st issue =
      if env.updateOk issue.number then
        Except.ok ⟨st.allArticles ++ entryArticles issue, st.active_num + 1,
          st.error_num, st.article_num + (entryArticles issue).length⟩
      else Except.error (RunError.updateFailed issue.number) := by
  rw [runStep]
  simp only [resultTruthy, if_true]
  rw [mergeArticles_processIssue]

lemma runLoop_ok (env : Env) : ∀ (issues : List Issue) (st st2 : RunState),
    runLoop env issues st = Except.ok st2 →
      st2.allArticles = st.allArticles ++ issues.flatMap entryArticles ∧
      st2.active_num = st.active_num + issues.length ∧
      st2.error_num = st.error_num ∧
      st2.article_num = st.article_num + (issues.flatMap entryArticles).length := by
  intro issues
  induction issues with
  | nil =>
    intro st st2 h
    rw [runLoop] at h
    cases h
    simp
  | cons i is ih =>
    intro st st2 h
    rw [runLoop, runStep_eq] at h
    cases hupd : env.updateOk i.number with
    | false => rw [hupd] at h; simp at h
    | true =>
      rw [hupd] at h
      simp only [if_true] at h
      have hrec := ih _ st2 h
      simp only [List.flatMap_cons]
      refine ⟨?_, ?_, ?_, ?_⟩
      · rw [hrec.1]; simp
      · rw [hrec.2.1]; simp; omega
      · exact hrec.2.2.1
      · rw [hrec.2.2.2]; simp; omega

lemma runLoop_isOk (env : Env) : ∀ (issues : List Issue) (st : RunState),
    (runLoop env issues st).isOk = issues.all (fun i => env.updateOk i.number) := by
  intro issues
  induction issues with
  | nil => intro st; rfl
  | cons i is ih =>
    intro st
    rw [runLoop, runStep_eq]
    cases hupd : env.updateOk i.number with
    | false => simp [hupd, Except.isOk, Except.toBool]
    | true => simp only [hupd, if_true]; rw [ih]; simp [hupd]

lemma run_ok_eq (env : Env) (issues : List Issue) (r : Report)
    (h : run env issues = Except.ok r) : r = reportOf issues := by
  rw [run] at h
  cases hl : runLoop env issues ⟨[], 0, 0, 0⟩ with
  | error e => rw [hl] at h; cases h
  | ok st =>
    rw [hl] at h
    have hspec := runLoop_ok env issues ⟨[], 0, 0, 0⟩ st hl
    cases h
    rw [reportOf]
    simp only [] at hspec
    rw [hspec.1, hspec.2.1, hspec.2.2.1, hspec.2.2.2]
    simp

lemma jsCompare_lt_descR (x y : Article) (h : jsCompare y x < 0) : descR y x := by
  intro da db hy hx
  rw [jsCompare, hy, hx] at h
  simp at h
  omega

lemma jsCompare_not_lt_descR (x y : Article) (h : ¬ jsCompare y x < 0) :
    descR x y := by
  intro da db hx hy
  rw [jsCompare, hy, hx] at h
  simp at h
  omega

lemma mergeFuel_head (f : Nat) (xs ys : List Article) (z : Article)
    (h : (mergeFuel f xs ys).head? = some z) :
    xs.head? = some z ∨ ys.head? = some z := by
  cases f with
  | zero => rw [mergeFuel] at h; cases h
  | succ f =>
    cases xs with
    | nil => right; rw [mergeFuel] at h; exact h
    | cons x xs =>
      cases ys with
      | nil => left; rw [mergeFuel] at h; exact h
      | cons y ys =>
        by_cases hc : jsCompare y x < 0
        · right; rw [mergeFuel, if_pos hc] at h; simpa using h
        · left; rw [mergeFuel, if_neg hc] at h; simpa using h

lemma chain'_mergeFuel : ∀ (f : Nat) (xs ys : List Article),
    List.Chain' descR xs → List.Chain' descR ys →
    List.Chain' descR (mergeFuel f xs ys) := by
  intro f
  induction f with
  | zero => intro xs ys _ _; rw [mergeFuel]; exact List.chain'_nil
  | succ f ih =>
    intro xs ys hx hy
    cases xs with
    | nil => rw [mergeFuel]; exact hy
    | cons x xs =>
      cases ys with
      | nil => rw [mergeFuel]; exact hx
      | cons y ys =>
        by_cases hc : jsCompare y x < 0
        · rw [mergeFuel, if_pos hc]
          rw [List.chain'_cons']
          constructor
          · intro z hz
            rcases mergeFuel_head f (x :: xs) ys z (Option.mem_def.mp hz) with h1 | h1
            · have hx1 : x = z := by simpa using h1
              rw [← hx1]
              exact jsCompare_lt_descR x y hc
            · exact (List.chain'_cons'.mp hy).1 z (Option.mem_def.mpr h1)
          · exact ih (x :: xs) ys hx (List.chain'_cons'.mp hy).2
        · rw [mergeFuel, if_neg hc]
          rw [List.chain'_cons']
          constructor
          · intro z hz
            rcases mergeFuel_head f xs (y :: ys) z (Option.mem_def.mp hz) with h1 | h1
            · exact (List.chain'_cons'.mp hx).1 z (Option.mem_def.mpr h1)
            · have hy1 : y = z := by simpa using h1
              rw [← hy1]
              exact jsCompare_not_lt_descR x y hc
          · exact ih xs (y :: ys) (List.chain'_cons'.mp hx).2 hy

lemma chain'_sortFuel : ∀ (f : Nat) (l : List Article),
    List.Chain' descR (sortFuel f l) := by
  intro f
  induction f with
  | zero => intro l; rw [sortFuel]; exact List.chain'_nil
  | succ f ih =>
    intro l
    rw [sortFuel]
    by_cases h : l.length ≤ 1
    · rw [if_pos h]
      cases l with
      | nil => exact List.chain'_nil
      | cons a t =>
        cases t with
        | nil => exact List.chain'_singleton a
        | cons b t2 => simp at h
    · rw [if_neg h]
      exact chain'_mergeFuel l.length _ _ (ih _) (ih _)

lemma chain'_sortJS (l : List Article) : List.Chain' descR (sortJS l) :=
  chain'_sortFuel l.length l

lemma mergeFuel_length : ∀ (f : Nat) (xs ys : List Article),
    xs.length + ys.length ≤ f →
    (mergeFuel f xs ys).length = xs.length + ys.length := by
  intro f
  induction f with
  | zero =>
    intro xs ys h
    rw [mergeFuel]
    simp only [List.length_nil]
    omega
  | succ f ih =>
    intro xs ys h
    cases xs with
    | nil => rw [mergeFuel]; simp
    | cons x xs =>
      cases ys with
      | nil => rw [mergeFuel]; simp
      | cons y ys =>
        simp only [List.length_cons] at h
        by_cases hc : jsCompare y x < 0
        · rw [mergeFuel, if_pos hc]
          rw [List.length_cons,
            ih (x :: xs) ys (by simp only [List.length_cons]; omega)]
          simp only [List.length_cons]
          omega
        · rw [mergeFuel, if_neg hc]
          rw [List.length_cons,
            ih xs (y :: ys) (by simp only [List.length_cons]; omega)]
          simp only [List.length_cons]
          omega

lemma sortFuel_length : ∀ (f : Nat) (l : List Article), l.length ≤ f →
    (sortFuel f l).length = l.length := by
  intro f
  induction f with
  | zero =>
    intro l h
    rw [sortFuel]
    simp at h
    simp [h]
  | succ f ih =>
    intro l h
    rw [sortFuel]
    by_cases h1 : l.length ≤ 1
    · rw [if_pos h1]
    · rw [if_neg h1]
      have ht : (l.take (l.length / 2)).length = l.length / 2 := by
        simp; omega
      have hd : (l.drop (l.length / 2)).length = l.length - l.length / 2 := by
        simp
      have hst := ih (l.take (l.length / 2)) (by rw [ht]; omega)
      have hsd := ih (l.drop (l.length / 2)) (by rw [hd]; omega)
      rw [mergeFuel_length l.length _ _ (by rw [hst, hsd, ht, hd]; omega)]
      rw [hst, hsd, ht, hd]
      omega

lemma sortJS_length (l : List Article) : (sortJS l).length = l.length :=
  sortFuel_length l.length l (Nat.le_refl _)

lemma peakAux_runTrace_le (env : Env) : ∀ (issues : List Issue) (acc : Nat),
    peakAux (runTrace env issues) 0 acc ≤ max acc 1 := by
  intro issues
  induction issues with
  | nil => intro acc; rw [runTrace, peakAux]; omega
  | cons i is ih =>
    intro acc
    rw [runTrace, peakAux, peakAux]
    cases hupd : env.updateOk i.number with
    | true =>
      simp only [hupd, if_true]
      have h := ih (max acc (0 + 1))
      simp only [Nat.zero_add] at h ⊢
      have h2 : (1 : Nat) - 1 = 0 := rfl
      rw [h2]
      omega
    | false =>
      simp
      rw [peakAux]
      omega

lemma startsOf_runTrace (env : Env) : ∀ (issues : List Issue),
    ∃ k, startsOf (runTrace env issues) = (issues.map Issue.number).take k := by
  intro issues
  induction issues with
  | nil => exact ⟨0, rfl⟩
  | cons i is ih =>
    rw [runTrace, startsOf, startsOf]
    cases hupd : env.updateOk i.number with
    | true =>
      simp only [hupd, if_true]
      rcases ih with ⟨k, hk⟩
      refine ⟨k + 1, ?_⟩
      rw [hk]
      simp [List.take_succ_cons]
    | false =>
      simp
      refine ⟨1, ?_⟩
      rw [startsOf]
      simp

lemma extractPost_published (isRss : Bool) (fmt : String) (it : FeedItem)
    (p : Post) (h : extractPost isRss fmt it = some p) :
    p.published = (if (if isRss then it.pubDate else it.published) ≠ ""
      then formatDate (if isRss then it.pubDate else it.published) fmt
      else "") := by
  rw [extractPost] at h
  split at h
  · split at h
    · cases h
      rfl
    · exact Option.noConfusion h
  · exact Option.noConfusion h

/-- Claim C1: for every run that completes aggregation, the final report
satisfies activeCount + errorCount = entriesTotal; activeCount counts the
entries whose Entry Processor invocation returned without throwing (all of
them, in a completed run) and errorCount those whose invocation raised
(none, since processIssue is total and a thrown update failure aborts the
run before a report exists). -/
theorem run_active_plus_error_eq_entries (env : Env) (issues : List Issue)
    (r : Report) (h : run env issues = Except.ok r) :
    r.active_num + r.error_num = r.friends_num := by
  rw [run_ok_eq env issues r h, reportOf]
  simp

theorem run_active_plus_error_eq_entries_witness :
    reportA.active_num + reportA.error_num = reportA.friends_num :=
  run_active_plus_error_eq_entries envA issuesA reportA rfl

/-- Claim C2: the posts flattened into the final report and counted in
postCount are exactly those of the posts arrays embedded in the original
structured data (entryArticles reads only issue content, never the fetch),
and the report is unchanged under any replacement of the fetch
collaborator; an entry whose data has no posts array contributes nothing
because entryArticles yields the empty list for it. -/
theorem run_posts_from_structured_data (env : Env) (issues : List Issue)
    (r : Report) (h : run env issues = Except.ok r) :
    r.article_data = sortJS (issues.flatMap entryArticles) ∧
    r.article_num = (issues.flatMap entryArticles).length ∧
    ∀ fetch2 r2,
      run (Env.mk env.cfg fetch2 env.updateOk) issues = Except.ok r2 →
      r2.article_data = r.article_data ∧ r2.article_num = r.article_num := by
  have h1 := run_ok_eq env issues r h
  subst h1
  refine ⟨rfl, rfl, ?_⟩
  intro fetch2 r2 h2
  have h3 := run_ok_eq _ issues r2 h2
  rw [h3]
  exact ⟨rfl, rfl⟩

theorem run_posts_from_structured_data_witness :
    reportA.article_data = sortJS (issuesA.flatMap entryArticles) :=
  (run_posts_from_structured_data envA issuesA reportA rfl).1

/-- Claim C3 counterexample: with every tracker update call failing, the
run over the sample entry aborts with the update error and produces no
report at all, even though that entry's structured data carries posts; so
an update failure does prevent the entry's posts from contributing and
does abort the run, contrary to the claim. -/
theorem update_failure_aborts_run_cex :
    run envBadUpd issuesA = Except.error (RunError.updateFailed 1) ∧
    entryArticles issueA ≠ [] :=
  ⟨rfl, by decide⟩

/-- Claim C3 amended: the awaited tracker update call is not protected by
any handler inside the task, so the run aborts (resolves with the error,
writing no artifact) exactly when some submitted entry's update call
fails; the failing entry's posts are then lost with the whole report. -/
theorem run_aborts_iff_update_fails (env : Env) (issues : List Issue) :
    (run env issues).isOk = false ↔
      ∃ i ∈ issues, env.updateOk i.number = false := by
  have hiff : (run env issues).isOk =
      (runLoop env issues ⟨[], 0, 0, 0⟩).isOk := by
    rw [run]
    cases hl : runLoop env issues ⟨[], 0, 0, 0⟩ with
    | ok st => rfl
    | error e => rfl
  rw [hiff, runLoop_isOk]
  constructor
  · intro hall
    rcases List.all_eq_false.mp hall with ⟨x, hx, hp⟩
    refine ⟨x, hx, ?_⟩
    revert hp
    cases env.updateOk x.number <;> simp
  · rintro ⟨x, hx, hp⟩
    apply List.all_eq_false.mpr
    refine ⟨x, hx, ?_⟩
    rw [hp]
    simp

/-- Claim C4 counterexample: a fetch-and-parse attempt that throws a parse
failure inside the try block of parseFeed does not surface to the caller:
the catch handler converts it into the empty post sequence, so the
Retrying Fetcher observes a successful empty result, not a thrown
failure. -/
theorem parse_failure_yields_empty_cex :
    parseFeedBody cfgA badFetch urlA = Except.error FetchErr.parseFailure ∧
    parseFeed cfgA badFetch urlA = [] :=
  ⟨rfl, rfl⟩

/-- Claim C4 amended: every failure of the try block of parseFeed
(network, timeout or markup parse failure) is caught inside parseFeed
itself, which then resolves with the empty post sequence; no failure of
any kind is thrown to the Retrying Fetcher. -/
theorem parseFeed_never_throws (cfg : Config)
    (fetch : String → Except FetchErr FeedDoc) (url : String)
    (h : (parseFeedBody cfg fetch url).isOk = false) :
    parseFeed cfg fetch url = [] := by
  rw [parseFeed]
  cases hb : parseFeedBody cfg fetch url with
  | ok ps => rw [hb] at h; simp [Except.isOk, Except.toBool] at h
  | error e => rfl

theorem parseFeed_never_throws_witness :
    parseFeed cfgA badFetch urlA = [] :=
  parseFeed_never_throws cfgA badFetch urlA rfl

/-- Claim C5: withRetry performs at least one and at most retries
attempts, waits the fixed delay between consecutive attempts and nowhere
else (the delay list is exactly attempts - 1 copies of the delay), a
success on the first attempt short-circuits everything, when every
attempt before the last fails the outcome is exactly that of the final
attempt (its posts on success, its error propagated on failure), and in
general any first success at attempt index k short-circuits the remaining
retries: that attempt's result is returned after exactly k + 1 attempts
and k inter-attempt delays. -/
theorem withRetry_spec (fn : Nat → Except E A) (retries delayMs : Nat)
    (h : 1 ≤ retries) :
    1 ≤ (withRetry fn retries delayMs).attempts ∧
    (withRetry fn retries delayMs).attempts ≤ retries ∧
    (withRetry fn retries delayMs).delays =
      List.replicate ((withRetry fn retries delayMs).attempts - 1) delayMs ∧
    (∀ a, fn 0 = Except.ok a →
      withRetry fn retries delayMs = ⟨Except.ok (some a), 1, []⟩) ∧
    ((∀ j, j < retries - 1 → (fn j).isOk = false) →
      (withRetry fn retries delayMs).result
        = Except.map some (fn (retries - 1))) ∧
    (∀ k a, k < retries → (∀ j, j < k → (fn j).isOk = false) →
      fn k = Except.ok a →
      withRetry fn retries delayMs
        = ⟨Except.ok (some a), k + 1, List.replicate k delayMs⟩) := by
  refine ⟨withRetryGo_attempts_pos fn delayMs 0 retries h,
    withRetryGo_attempts_le fn delayMs retries 0,
    withRetryGo_delays fn delayMs retries 0,
    fun a ha => withRetry_first_ok fn retries delayMs a h ha,
    fun hf => ?_,
    fun k a hk hfail hok => ?_⟩
  · have hres := withRetryGo_all_fail fn delayMs retries 0 h
      (fun j hj1 hj2 => hf j (by omega))
    simpa using hres
  · exact withRetryGo_first_success fn delayMs retries 0 k a hk
      (fun j hj1 hj2 => hfail j (by omega))
      (by rw [Nat.zero_add]; exact hok)

theorem withRetry_spec_witness :
    withRetry fnW 5 1000 = ⟨Except.ok (some 42), 2, [1000]⟩ := by
  have h := (withRetry_spec fnW 5 1000 (by decide)).2.2.2.2.2
    1 42 (by decide)
    (fun j hj => by
      have hj0 : j = 0 := by omega
      rw [hj0]; rfl)
    rfl
  rw [h]
  rfl

/-- Claim C6 counterexample: an RSS item whose pubDate is present but
unparsable yields a post whose published field is the dayjs marker string
Invalid Date, not the empty string the claim requires for unparsable raw
dates. -/
theorem unparsable_date_marker_cex :
    parseFeed cfgA fetchBadDate urlA
      = [⟨itemBad.title, itemBad.linkText, invalidDateStr⟩] ∧
    parseDateModel garbageDate = none ∧
    invalidDateStr ≠ "" :=
  ⟨rfl, rfl, by decide⟩

/-- Claim C6 amended: the emitted published field equals the raw date
string formatted with the configured output format when the raw field is
present and parsable, and equals the empty string exactly when the raw
field is absent (empty text); a present but unparsable raw field instead
yields the formatter's Invalid Date marker string.  The formatting never
raises: extractPost and formatDate are total. -/
theorem extractPost_published_amended (isRss : Bool) (fmt : String)
    (it : FeedItem) (p : Post) (raw : String)
    (hraw : raw = if isRss then it.pubDate else it.published)
    (h : extractPost isRss fmt it = some p) :
    (raw = "" → p.published = "") ∧
    (∀ v, parseDateModel raw = some v → p.published = renderDate v fmt) ∧
    (raw ≠ "" → parseDateModel raw = none →
      p.published = invalidDateStr) := by
  subst hraw
  have hp := extractPost_published isRss fmt it p h
  refine ⟨?_, ?_, ?_⟩
  · intro h0
    rw [hp, h0]
    simp
  · intro v hv
    have hne : (if isRss then it.pubDate else it.published) ≠ "" := by
      intro he
      rw [he] at hv
      have h00 : parseDateModel "" = none := rfl
      rw [h00] at hv
      exact Option.noConfusion hv
    rw [hp, if_pos hne]
    simp only [formatDate, hv]
  · intro hne hnone
    rw [hp, if_pos hne]
    simp only [formatDate, hnone]

theorem extractPost_published_amended_witness :
    (Post.mk itemGood.title itemGood.linkText
      (renderDate 20240102 fmtA)).published = renderDate 20240102 fmtA :=
  (extractPost_published_amended true fmtA itemGood
    ⟨itemGood.title, itemGood.linkText, renderDate 20240102 fmtA⟩
    itemGood.pubDate rfl rfl).2.1 20240102 rfl

/-- Claim C7: in the final aggregated report of every completed run, the
post list is ordered by published timestamp descending over every adjacent
pair whose timestamps are parseable, whatever the input entries (and hence
whatever order results arrived, since the list is fully re-sorted at the
end). -/
theorem run_report_sorted_desc (env : Env) (issues : List Issue)
    (r : Report) (h : run env issues = Except.ok r) :
    List.Chain' descR r.article_data := by
  have h1 := run_ok_eq env issues r h
  subst h1
  show List.Chain' descR (sortJS (issues.flatMap entryArticles))
  exact chain'_sortJS _

theorem run_report_sorted_desc_witness :
    List.Chain' descR reportA.article_data :=
  run_report_sorted_desc envA issuesA reportA rfl

/-- Claim C8: along the scheduler trace of every run, the number of task
bodies simultaneously in flight never exceeds the ceiling
CONCURRENCY_LIMIT (the driver awaits each pool.add, so the peak is in fact
one), and task bodies are admitted in exactly the FIFO order the entries
were submitted (the start events are an initial segment of the submission
order). -/
theorem scheduler_ceiling_fifo (env : Env) (issues : List Issue) :
    peakConcurrency (runTrace env issues) ≤ CONCURRENCY_LIMIT ∧
    ∃ k, startsOf (runTrace env issues)
      = (issues.map Issue.number).take k := by
  constructor
  · have h := peakAux_runTrace_le env issues 0
    show peakAux (runTrace env issues) 0 0 ≤ 10
    omega
  · exact startsOf_runTrace env issues

/-- Claim C9: composing withRetry with parseFeed is behaviorally a single
parseFeed call: since parseFeed never throws, the first attempt always
succeeds, so for every retry count of at least one the composition makes
exactly one attempt, incurs no delay, and returns the first attempt's
posts, whatever the later attempts would have observed. -/
theorem withRetry_parseFeed_single (cfg : Config)
    (fetchAt : Nat → String → Except FetchErr FeedDoc) (url : String)
    (n delayMs : Nat) (h : 1 ≤ n) :
    withRetry (fun i => (Except.ok (parseFeed cfg (fetchAt i) url) :
        Except FetchErr (List Post))) n delayMs
      = ⟨Except.ok (some (parseFeed cfg (fetchAt 0) url)), 1, []⟩ := by
  match n, h with
  | n + 1, _ => rw [withRetry, withRetryGo]

theorem withRetry_parseFeed_single_witness :
    withRetry (fun i => (Except.ok (parseFeed cfgA (fetchAtW i) urlA) :
        Except FetchErr (List Post))) 3 1000
      = ⟨Except.ok (some (parseFeed cfgA (fetchAtW 0) urlA)), 1, []⟩ :=
  withRetry_parseFeed_single cfgA fetchAtW urlA 3 1000 (by decide)

/-- Claim C10: in every run that reaches aggregation, errorCount is zero
and activeCount equals entriesTotal, because processIssue always resolves
with a result object that is truthy as a JS value, leaving the
errorCount-incrementing branch unreachable. -/
theorem run_error_branch_unreachable (env : Env) (issues : List Issue)
    (r : Report) (h : run env issues = Except.ok r) :
    r.error_num = 0 ∧ r.active_num = r.friends_num ∧
    ∀ issue, resultTruthy (processIssue env.cfg env.fetch issue) = true := by
  have h1 := run_ok_eq env issues r h
  subst h1
  exact ⟨rfl, rfl, fun _ => rfl⟩

theorem run_error_branch_unreachable_witness :
    reportA.error_num = 0 ∧ reportA.active_num = reportA.friends_num :=
  ⟨(run_error_branch_unreachable envA issuesA reportA rfl).1,
    (run_error_branch_unreachable envA issuesA reportA rfl).2.1⟩
